import Mathlib

/-!
# WebX403 — verification of the core protocol against its specification

The repository ships `packages/py-server/webx403/__init__.py`, which re-exports
the core API (`base64url_encode`, `base64url_decode`, `build_signing_string`,
`parse_authorization_header`, `verify_authorization`, `create_challenge`,
`generate_nonce`, `InMemoryReplayStore`, …) from `webx403.core` and the
middleware layer from `webx403.middleware`.  The bodies of `webx403/core.py`
and `webx403/middleware.py` are not part of the available source tree, so the
component definitions below are modelled from the specification (each such
definition's doc comment starts with `Modelled from the spec:`).  The
`__init__.py` export surface itself is present and is embedded verbatim.
-/

namespace WebX403

/-! ## Codec (base64url, unpadded) — §4.1 -/

/-- The URL-safe base64 alphabet, in index order `A..Z a..z 0..9 - _`. -/
def alphabetChars : List Char :=
  ['A','B','C','D','E','F','G','H','I','J','K','L','M',
   'N','O','P','Q','R','S','T','U','V','W','X','Y','Z',
   'a','b','c','d','e','f','g','h','i','j','k','l','m',
   'n','o','p','q','r','s','t','u','v','w','x','y','z',
   '0','1','2','3','4','5','6','7','8','9','-','_']

/-- Character for a 6-bit group. -/
def b64Char (i : Nat) : Char := alphabetChars.getD i 'A'

/-- Index of a base64url character; `none` for characters outside the
URL-safe alphabet. -/
def b64CharIdx (c : Char) : Option Nat := alphabetChars.findIdx? (· = c)

/-- `true` exactly on the URL-safe base64 alphabet `[A-Za-z0-9_-]`. -/
def isB64UrlChar (c : Char) : Bool :=
  ('A' ≤ c && c ≤ 'Z') || ('a' ≤ c && c ≤ 'z') || ('0' ≤ c && c ≤ '9') ||
    c = '-' || c = '_'

/-- Modelled from the spec: `base64urlEncode` (§4.1, `webx403.core` missing
from the source tree).  Encodes a byte sequence to the URL-safe alphabet with
no padding: 3 input bytes per 4 output characters, a 1-byte tail giving 2
characters and a 2-byte tail giving 3. -/
def base64url_encode : List Nat → List Char
  | [] => []
  | [b0] => [b64Char (b0 / 4), b64Char (b0 % 4 * 16)]
  | [b0, b1] =>
      [b64Char (b0 / 4), b64Char (b0 % 4 * 16 + b1 / 16), b64Char (b1 % 16 * 4)]
  | b0 :: b1 :: b2 :: rest =>
      b64Char (b0 / 4) :: b64Char (b0 % 4 * 16 + b1 / 16) ::
        b64Char (b1 % 16 * 4 + b2 / 64) :: b64Char (b2 % 64) ::
        base64url_encode rest

/-- Modelled from the spec: `base64urlDecode` (§4.1, `webx403.core` missing
from the source tree).  Exact inverse of `base64url_encode`; fails on
characters outside the alphabet, on a length inconsistent with an unpadded
base64url string (`≡ 1 (mod 4)`), and on nonzero trailing bits. -/
def base64url_decode : List Char → Option (List Nat)
  | [] => some []
  | [_] => none
  | [c0, c1] => do
      let i0 ← b64CharIdx c0
      let i1 ← b64CharIdx c1
      if i1 % 16 = 0 then pure [i0 * 4 + i1 / 16] else none
  | [c0, c1, c2] => do
      let i0 ← b64CharIdx c0
      let i1 ← b64CharIdx c1
      let i2 ← b64CharIdx c2
      if i2 % 4 = 0 then pure [i0 * 4 + i1 / 16, i1 % 16 * 16 + i2 / 4] else none
  | c0 :: c1 :: c2 :: c3 :: rest => do
      let i0 ← b64CharIdx c0
      let i1 ← b64CharIdx c1
      let i2 ← b64CharIdx c2
      let i3 ← b64CharIdx c3
      let tail ← base64url_decode rest
      pure ((i0 * 4 + i1 / 16) :: (i1 % 16 * 16 + i2 / 4) :: (i2 % 4 * 64 + i3) :: tail)

/-- Every position of `l` holds a byte value. -/
def isBytes (l : List Nat) : Prop := ∀ b ∈ l, b < 256

instance (l : List Nat) : Decidable (isBytes l) := by
  unfold isBytes; infer_instance

theorem b64CharIdx_b64Char : ∀ i, i < 64 → b64CharIdx (b64Char i) = some i := by
  decide

theorem isB64UrlChar_b64Char : ∀ i, i < 64 → isB64UrlChar (b64Char i) = true := by
  decide

theorem b64_roundtrip : ∀ l : List Nat, isBytes l →
    base64url_decode (base64url_encode l) = some l := fun l => by
  match l with
  | [] => intro _; rfl
  | [b0] =>
      intro h
      have hb0 : b0 < 256 := h b0 (by simp)
      have h1 : b0 / 4 < 64 := by omega
      have h2 : b0 % 4 * 16 < 64 := by omega
      simp only [base64url_encode, base64url_decode,
        b64CharIdx_b64Char _ h1, b64CharIdx_b64Char _ h2, Option.pure_def,
        Option.bind_eq_bind, Option.some_bind]
      have h3 : b0 % 4 * 16 % 16 = 0 := by omega
      simp only [h3, if_pos]
      have e0 : b0 / 4 * 4 + b0 % 4 * 16 / 16 = b0 := by omega
      rw [e0]
  | [b0, b1] =>
      intro h
      have hb0 : b0 < 256 := h b0 (by simp)
      have hb1 : b1 < 256 := h b1 (by simp)
      have h1 : b0 / 4 < 64 := by omega
      have h2 : b0 % 4 * 16 + b1 / 16 < 64 := by omega
      have h3 : b1 % 16 * 4 < 64 := by omega
      simp only [base64url_encode, base64url_decode,
        b64CharIdx_b64Char _ h1, b64CharIdx_b64Char _ h2, b64CharIdx_b64Char _ h3,
        Option.pure_def, Option.bind_eq_bind, Option.some_bind]
      have h4 : b1 % 16 * 4 % 4 = 0 := by omega
      simp only [h4, if_pos]
      have e0 : b0 / 4 * 4 + (b0 % 4 * 16 + b1 / 16) / 16 = b0 := by omega
      have e1 : (b0 % 4 * 16 + b1 / 16) % 16 * 16 + b1 % 16 * 4 / 4 = b1 := by omega
      rw [e0, e1]
  | b0 :: b1 :: b2 :: rest =>
      intro h
      have hb0 : b0 < 256 := h b0 (by simp)
      have hb1 : b1 < 256 := h b1 (by simp)
      have hb2 : b2 < 256 := h b2 (by simp)
      have hrest : isBytes rest := fun b hb => h b (by simp [hb])
      have h1 : b0 / 4 < 64 := by omega
      have h2 : b0 % 4 * 16 + b1 / 16 < 64 := by omega
      have h3 : b1 % 16 * 4 + b2 / 64 < 64 := by omega
      have h4 : b2 % 64 < 64 := by omega
      have ih := b64_roundtrip rest hrest
      simp only [base64url_encode, base64url_decode,
        b64CharIdx_b64Char _ h1, b64CharIdx_b64Char _ h2, b64CharIdx_b64Char _ h3,
        b64CharIdx_b64Char _ h4, Option.pure_def, Option.bind_eq_bind,
        Option.some_bind, ih]
      have e0 : b0 / 4 * 4 + (b0 % 4 * 16 + b1 / 16) / 16 = b0 := by omega
      have e1 : (b0 % 4 * 16 + b1 / 16) % 16 * 16 + (b1 % 16 * 4 + b2 / 64) / 4 = b1 := by
        omega
      have e2 : (b1 % 16 * 4 + b2 / 64) % 4 * 64 + b2 % 64 = b2 := by omega
      rw [e0, e1, e2]

theorem b64_encode_chars : ∀ l : List Nat, isBytes l →
    ∀ c ∈ base64url_encode l, isB64UrlChar c = true := fun l => by
  match l with
  | [] => intro _ c hc; simp [base64url_encode] at hc
  | [b0] =>
      intro h c hc
      have hb0 : b0 < 256 := h b0 (by simp)
      simp only [base64url_encode, List.mem_cons, List.not_mem_nil, or_false] at hc
      rcases hc with rfl | rfl
      · exact isB64UrlChar_b64Char _ (by omega)
      · exact isB64UrlChar_b64Char _ (by omega)
  | [b0, b1] =>
      intro h c hc
      have hb0 : b0 < 256 := h b0 (by simp)
      have hb1 : b1 < 256 := h b1 (by simp)
      simp only [base64url_encode, List.mem_cons, List.not_mem_nil, or_false] at hc
      rcases hc with rfl | rfl | rfl
      · exact isB64UrlChar_b64Char _ (by omega)
      · exact isB64UrlChar_b64Char _ (by omega)
      · exact isB64UrlChar_b64Char _ (by omega)
  | b0 :: b1 :: b2 :: rest =>
      intro h c hc
      have hb0 : b0 < 256 := h b0 (by simp)
      have hb1 : b1 < 256 := h b1 (by simp)
      have hb2 : b2 < 256 := h b2 (by simp)
      have hrest : isBytes rest := fun b hb => h b (by simp [hb])
      simp only [base64url_encode, List.mem_cons] at hc
      rcases hc with rfl | rfl | rfl | rfl | hc
      · exact isB64UrlChar_b64Char _ (by omega)
      · exact isB64UrlChar_b64Char _ (by omega)
      · exact isB64UrlChar_b64Char _ (by omega)
      · exact isB64UrlChar_b64Char _ (by omega)
      · exact b64_encode_chars rest hrest c hc

theorem b64_encode_injOn {l1 l2 : List Nat} (h1 : isBytes l1) (h2 : isBytes l2)
    (h : base64url_encode l1 = base64url_encode l2) : l1 = l2 := by
  have := b64_roundtrip l1 h1
  rw [h, b64_roundtrip l2 h2] at this
  exact (Option.some_inj.mp this).symm

/-! ## Decimal rendering of naturals (timestamps and length prefixes) -/

/-- Character for a decimal digit value `< 10`. -/
def digitChar : Nat → Char
  | 0 => '0' | 1 => '1' | 2 => '2' | 3 => '3' | 4 => '4'
  | 5 => '5' | 6 => '6' | 7 => '7' | 8 => '8' | _ => '9'

/-- `true` exactly on `'0'..'9'`. -/
def isDigitChar (c : Char) : Bool := '0' ≤ c && c ≤ '9'

/-- Decimal rendering of a natural number, most significant digit first. -/
def natDigits (n : Nat) : List Char :=
  if _h : n < 10 then [digitChar n]
  else natDigits (n / 10) ++ [digitChar (n % 10)]
  decreasing_by exact Nat.div_lt_self (by omega) (by omega)

/-- Left fold reading a decimal digit string back into a natural number. -/
def digitsToNat (l : List Char) : Nat :=
  l.foldl (fun acc c => acc * 10 + (c.toNat - 48)) 0

theorem digitChar_toNat : ∀ d, d < 10 → (digitChar d).toNat - 48 = d := by
  decide

theorem isDigitChar_digitChar : ∀ d, d < 10 → isDigitChar (digitChar d) = true := by
  decide

theorem digitsToNat_append_digit (l : List Char) (c : Char) :
    digitsToNat (l ++ [c]) = digitsToNat l * 10 + (c.toNat - 48) := by
  simp [digitsToNat, List.foldl_append]

theorem digitsToNat_natDigits : ∀ n, digitsToNat (natDigits n) = n := fun n => by
  rw [natDigits]
  by_cases h : n < 10
  · simp only [h, dif_pos]
    simp [digitsToNat, digitChar_toNat n h]
  · simp only [h, dif_neg, not_false_iff]
    rw [digitsToNat_append_digit, digitsToNat_natDigits (n / 10),
      digitChar_toNat _ (by omega)]
    omega
  decreasing_by exact Nat.div_lt_self (by omega) (by omega)

theorem natDigits_inj {m n : Nat} (h : natDigits m = natDigits n) : m = n := by
  have := digitsToNat_natDigits m
  rw [h, digitsToNat_natDigits n] at this
  exact this.symm

theorem natDigits_all_digits : ∀ n, ∀ c ∈ natDigits n, isDigitChar c = true := fun n => by
  rw [natDigits]
  by_cases h : n < 10
  · simp only [h, dif_pos]
    intro c hc
    simp only [List.mem_singleton] at hc
    exact hc ▸ isDigitChar_digitChar n h
  · simp only [h, dif_neg, not_false_iff]
    intro c hc
    rcases List.mem_append.mp hc with hc | hc
    · exact natDigits_all_digits (n / 10) c hc
    · simp only [List.mem_singleton] at hc
      exact hc ▸ isDigitChar_digitChar _ (by omega)
  decreasing_by exact Nat.div_lt_self (by omega) (by omega)

/-! ## Canonical signing string — §3 and §4.3

Each component is length-prefixed (`<decimal length>:<payload>`), making the
overall string self-delimiting and hence injective in its components, as §3's
invariant requires ("field values must be escaped or length-prefixed"). -/

/-- Length-prefixed encoding of one component. -/
def encComp (s : List Char) : List Char := natDigits s.length ++ ':' :: s

/-- Concatenation of the length-prefixed components. -/
def encList : List (List Char) → List Char
  | [] => []
  | s :: rest => encComp s ++ encList rest

/-- Bound fields flattened to alternating key/value components. -/
def fieldsFlatten : List (String × String) → List (List Char)
  | [] => []
  | (k, v) :: rest => k.data :: v.data :: fieldsFlatten rest

/-- Fixed protocol tag opening every signing string. -/
def protocolTag : String := "webx403-v1"

/-- Component list of the signing string: protocol tag, domain, base64url
nonce, decimal timestamp, then the bound fields in header order. -/
def signingComponents (domain : String) (nonce : List Nat) (timestamp : Nat)
    (fields : List (String × String)) : List (List Char) :=
  protocolTag.data :: domain.data :: base64url_encode nonce ::
    natDigits timestamp :: fieldsFlatten fields

/-- Modelled from the spec: `buildSigningString` (§4.3, `webx403.core` missing
from the source tree).  Deterministic, injective text encoding of
`(domain, nonce, timestamp, boundFields)`: fixed protocol tag, domain,
base64url nonce, decimal timestamp and each bound field's key and value,
every component length-prefixed so no field value can collide with the
separators. -/
def build_signing_string (domain : String) (nonce : List Nat) (timestamp : Nat)
    (fields : List (String × String)) : String :=
  ⟨encList (signingComponents domain nonce timestamp fields)⟩

theorem digits_colon_unique :
    ∀ (a1 : List Char) (a2 t1 t2 : List Char),
      (∀ c ∈ a1, isDigitChar c = true) → (∀ c ∈ a2, isDigitChar c = true) →
      a1 ++ ':' :: t1 = a2 ++ ':' :: t2 → a1 = a2 ∧ t1 = t2 := by
  intro a1
  induction a1 with
  | nil =>
      intro a2 t1 t2 _ h2 heq
      cases a2 with
      | nil => simpa using heq
      | cons c a2' =>
          simp only [List.nil_append, List.cons_append, List.cons.injEq] at heq
          have : isDigitChar ':' = true := heq.1 ▸ h2 c (by simp)
          simp [isDigitChar] at this
  | cons c1 a1' ih =>
      intro a2 t1 t2 h1 h2 heq
      cases a2 with
      | nil =>
          simp only [List.cons_append, List.nil_append, List.cons.injEq] at heq
          have : isDigitChar ':' = true := heq.1 ▸ h1 c1 (by simp)
          simp [isDigitChar] at this
      | cons c2 a2' =>
          simp only [List.cons_append, List.cons.injEq] at heq
          obtain ⟨rfl, heq'⟩ := heq
          obtain ⟨rfl, rfl⟩ := ih a2' t1 t2 (fun c hc => h1 c (by simp [hc]))
            (fun c hc => h2 c (by simp [hc])) heq'
          exact ⟨rfl, rfl⟩

theorem encComp_prefix_inj {s1 s2 r1 r2 : List Char}
    (h : encComp s1 ++ r1 = encComp s2 ++ r2) : s1 = s2 ∧ r1 = r2 := by
  unfold encComp at h
  rw [List.append_assoc, List.append_assoc] at h
  simp only [List.cons_append] at h
  obtain ⟨hdig, htail⟩ := digits_colon_unique _ _ _ _
    (natDigits_all_digits _) (natDigits_all_digits _) h
  have hlen : s1.length = s2.length := natDigits_inj hdig
  exact List.append_inj htail hlen

theorem encList_inj : ∀ l1 l2 : List (List Char), encList l1 = encList l2 → l1 = l2 := by
  intro l1
  induction l1 with
  | nil =>
      intro l2 h
      cases l2 with
      | nil => rfl
      | cons s rest =>
          exfalso
          have hlen := congrArg List.length h
          simp only [encList, encComp, List.length_nil, List.length_append,
            List.length_cons] at hlen
          omega
  | cons s1 rest1 ih =>
      intro l2 h
      cases l2 with
      | nil =>
          exfalso
          have hlen := congrArg List.length h
          simp only [encList, encComp, List.length_nil, List.length_append,
            List.length_cons] at hlen
          omega
      | cons s2 rest2 =>
          simp only [encList] at h
          obtain ⟨rfl, htail⟩ := encComp_prefix_inj h
          exact congrArg _ (ih rest2 htail)

theorem fieldsFlatten_inj : ∀ f1 f2 : List (String × String),
    fieldsFlatten f1 = fieldsFlatten f2 → f1 = f2 := by
  intro f1
  induction f1 with
  | nil =>
      intro f2 h
      cases f2 with
      | nil => rfl
      | cons p rest => cases p; exact List.noConfusion h
  | cons p rest1 ih =>
      intro f2 h
      cases f2 with
      | nil => cases p; exact List.noConfusion h
      | cons q rest2 =>
          cases p; cases q
          simp only [fieldsFlatten, List.cons.injEq] at h
          obtain ⟨hk, hv, htail⟩ := h
          simp only [List.cons.injEq, Prod.mk.injEq]
          exact ⟨⟨String.ext hk, String.ext hv⟩, ih _ htail⟩

/-! ## Data model — §3 -/

/-- Modelled from the spec: `Challenge` (§3, `webx403.core` missing from the
source tree). -/
structure Challenge where
  nonce : List Nat
  issuedAt : Int
  expiresAt : Int
  domain : String
  deriving Repr, DecidableEq

/-- Modelled from the spec: `AuthorizationParams` (§3, `webx403.core` missing
from the source tree). -/
structure AuthorizationParams where
  publicKey : List Nat
  signature : List Nat
  nonce : List Nat
  timestamp : Nat
  domain : String
  extraBoundFields : List (String × String)
  deriving Repr, DecidableEq

/-- Reasons a verification can fail — §3's `VerifyResult` invalid tags. -/
inductive InvalidReason where
  | BadSignature | Expired | NotYetValid | Replayed | Malformed
  deriving Repr, DecidableEq

/-- Modelled from the spec: `VerifyResult` (§3, `webx403.core` missing from
the source tree). -/
inductive VerifyResult where
  | valid (publicKey : List Nat) (boundFields : List (String × String))
  | invalid (reason : InvalidReason)
  deriving Repr, DecidableEq

/-! ## Replay store — §4.6 -/

/-- A replay-store key: the `(publicKey, nonce)` pair. -/
abbrev ReplayKey := List Nat × List Nat

/-- Modelled from the spec: `InMemoryReplayStore` (§4.6, `webx403.core`
missing from the source tree).  Entries pair a consumed `(publicKey, nonce)`
key with the retention deadline derived from its originating challenge. -/
abbrev InMemoryReplayStore := List (ReplayKey × Nat)

/-- Whether `k` has already been consumed. -/
def containsKey (store : InMemoryReplayStore) (k : ReplayKey) : Bool :=
  store.any (fun e => decide (e.1 = k))

/-- Modelled from the spec: `markIfAbsent` (§4.6, `webx403.core` missing from
the source tree).  Atomic check-and-set: returns `true` and records the entry
iff this call is the first to insert `k`; otherwise returns `false` and
leaves the store unchanged. -/
def markIfAbsent (store : InMemoryReplayStore) (k : ReplayKey) (expiry : Nat) :
    Bool × InMemoryReplayStore :=
  if containsKey store k then (false, store) else (true, (k, expiry) :: store)

/-- Modelled from the spec: `evictExpired` (§4.6, `webx403.core` missing from
the source tree).  Removes exactly the entries whose retention deadline has
passed (`expiry < now`). -/
def evictExpired (now : Nat) (store : InMemoryReplayStore) : InMemoryReplayStore :=
  store.filter (fun e => decide (now ≤ e.2))

/-! ## Verifier — §4.5 -/

/-- A black-box signature verifier: `publicKey → message → signature → ok?`
(§1 treats the cryptographic primitive as an external capability). -/
abbrev SigVerifier := List Nat → String → List Nat → Bool

/-- Configuration surface of the verifier (§6). -/
structure VerifyConfig where
  maxChallengeAgeSeconds : Nat
  clockSkewToleranceSeconds : Nat
  deriving Repr, DecidableEq

/-- Modelled from the spec: `verify_authorization` (§4.5, `webx403.core`
missing from the source tree).  Short-circuiting state machine: reconstruct
the signing string, check the signature, check the timestamp window
(inclusive bounds), then atomically mark the `(publicKey, nonce)` pair. -/
def verify_authorization (sigVerify : SigVerifier) (cfg : VerifyConfig)
    (now : Nat) (store : InMemoryReplayStore) (p : AuthorizationParams) :
    VerifyResult × InMemoryReplayStore :=
  let msg := build_signing_string p.domain p.nonce p.timestamp p.extraBoundFields
  if sigVerify p.publicKey msg p.signature then
    if cfg.maxChallengeAgeSeconds < now - p.timestamp then
      (.invalid .Expired, store)
    else if cfg.clockSkewToleranceSeconds < p.timestamp - now then
      (.invalid .NotYetValid, store)
    else
      match markIfAbsent store (p.publicKey, p.nonce)
          (p.timestamp + cfg.maxChallengeAgeSeconds) with
      | (true, store1) => (.valid p.publicKey p.extraBoundFields, store1)
      | (false, store1) => (.invalid .Replayed, store1)
  else
    (.invalid .BadSignature, store)

/-! ## Challenge builder — §4.3 -/

/-- Modelled from the spec: `generate_nonce` (§4.2, `webx403.core` missing
from the source tree).  `len` bytes drawn from the injected randomness
capability (§9 requires the random source to be an injected dependency). -/
def generate_nonce (len : Nat) (rand : Nat → Nat) : List Nat :=
  (List.range len).map (fun i => rand i % 256)

/-- Modelled from the spec: `create_challenge` (§4.3, `webx403.core` missing
from the source tree).  Rejects a non-positive or above-maximum `ttl` with a
configuration error at construction; otherwise issues a challenge with a
32-byte nonce, `issuedAt = now` and `expiresAt = issuedAt + ttl`. -/
def create_challenge (domain : String) (ttl maxTtl : Int) (now : Int)
    (rand : Nat → Nat) : Except String Challenge :=
  if ttl ≤ 0 ∨ maxTtl < ttl then
    .error "configuration error: invalid ttlSeconds"
  else
    .ok { nonce := generate_nonce 32 rand, issuedAt := now,
          expiresAt := now + ttl, domain := domain }

/-! ## Authorization parser — §4.4 -/

/-- `true` on the whitespace tolerated between parameters. -/
def isWsChar (c : Char) : Bool := c = ' ' || c = '\t'

/-- `true` on characters allowed in a parameter key. -/
def isKeyChar (c : Char) : Bool :=
  !(c = '=' || c = ',' || c = '"' || isWsChar c)

/-- One pass of the parameter lexer: skip whitespace, read `key="value"`,
then expect `,` (more pairs) or end of input.  Fuel-driven so the recursion
is structurally decreasing. -/
def lexPairs : Nat → List Char → Option (List (String × String))
  | 0, _ => none
  | fuel + 1, cs =>
    match cs.dropWhile isWsChar with
    | [] => some []
    | cs1 =>
      let key := cs1.takeWhile isKeyChar
      if key.isEmpty then none
      else
        match cs1.dropWhile isKeyChar with
        | '=' :: '"' :: cs2 =>
          let val := cs2.takeWhile (fun c => !(c = '"'))
          match cs2.dropWhile (fun c => !(c = '"')) with
          | '"' :: cs3 =>
            match cs3.dropWhile isWsChar with
            | [] => some [(⟨key⟩, ⟨val⟩)]
            | ',' :: cs4 =>
                (lexPairs fuel cs4).map (fun rest => (⟨key⟩, ⟨val⟩) :: rest)
            | _ => none
          | _ => none
        | _ => none

/-- Splits a raw header into its scheme token and its raw `key="value"`
parameter list, in header order and with duplicates retained. -/
def lexHeader (raw : String) : Option (String × List (String × String)) :=
  let scheme := raw.data.takeWhile (fun c => !(c = ' '))
  if scheme.isEmpty then none
  else
    match raw.data.dropWhile (fun c => !(c = ' ')) with
    | [] => some (⟨scheme⟩, [])
    | _ :: rest =>
        (lexPairs (rest.length + 1) rest).map (fun ps => (⟨scheme⟩, ps))

/-- The required header keys (§4.4). -/
def requiredKeys : List String :=
  ["publicKey", "signature", "nonce", "timestamp", "domain"]

/-- `true` when a key occurs more than once among the raw pairs. -/
def hasDupKeys : List (String × String) → Bool
  | [] => false
  | (k, _) :: rest => rest.any (fun p => decide (p.1 = k)) || hasDupKeys rest

/-- First value bound to key `k`, if any. -/
def lookupVal (pairs : List (String × String)) (k : String) : Option String :=
  (pairs.find? (fun p => decide (p.1 = k))).map (fun p => p.2)

/-- Base64url-decodes a header value. -/
def decodeB64Value (s : String) : Option (List Nat) := base64url_decode s.data

/-- Parses a header value as a non-negative decimal integer. -/
def parseTimestampValue (s : String) : Option Nat :=
  if s.data ≠ [] ∧ ∀ c ∈ s.data, isDigitChar c = true then
    some (digitsToNat s.data)
  else none

instance (s : String) :
    Decidable (s.data ≠ [] ∧ ∀ c ∈ s.data, isDigitChar c = true) := by
  infer_instance

/-- Validates the lexed pairs: rejects duplicate keys, missing required keys
and values that fail their expected encoding; captures the unrecognized keys,
in header order, as `extraBoundFields`. -/
def validatePairs (pairs : List (String × String)) : Option AuthorizationParams :=
  if hasDupKeys pairs then none
  else match lookupVal pairs "publicKey" with
  | none => none
  | some pkS =>
    match decodeB64Value pkS with
    | none => none
    | some pk =>
      match lookupVal pairs "signature" with
      | none => none
      | some sigS =>
        match decodeB64Value sigS with
        | none => none
        | some sig =>
          match lookupVal pairs "nonce" with
          | none => none
          | some nS =>
            match decodeB64Value nS with
            | none => none
            | some nonce =>
              match lookupVal pairs "timestamp" with
              | none => none
              | some tsS =>
                match parseTimestampValue tsS with
                | none => none
                | some ts =>
                  match lookupVal pairs "domain" with
                  | none => none
                  | some dS =>
                    if pk.length = 32 ∧ sig.length = 64 then
                      some { publicKey := pk, signature := sig, nonce := nonce,
                             timestamp := ts, domain := dS,
                             extraBoundFields :=
                               pairs.filter
                                 (fun p => !requiredKeys.contains p.1) }
                    else none

/-- Modelled from the spec: `parse_authorization_header` (§4.4,
`webx403.core` missing from the source tree).  Lexes the scheme-prefixed
`key="value"` list, then validates it into `AuthorizationParams`; any failure
is `Malformed` (`none`). -/
def parse_authorization_header (raw : String) : Option AuthorizationParams :=
  (lexHeader raw).bind (fun sp => validatePairs sp.2)

/-- Verification from the raw header: parse, then run the verifier state
machine; a parse failure is `Invalid{Malformed}` and touches nothing else. -/
def verify_header (sigVerify : SigVerifier) (cfg : VerifyConfig) (now : Nat)
    (store : InMemoryReplayStore) (raw : String) :
    VerifyResult × InMemoryReplayStore :=
  match parse_authorization_header raw with
  | none => (.invalid .Malformed, store)
  | some p => verify_authorization sigVerify cfg now store p

/-! ## The `webx403/__init__.py` export surface (present in the source tree) -/

/-- The names `__init__.py` imports from `webx403.core`, in source order. -/
def coreImports : List String :=
  ["Challenge", "AuthorizationParams", "VerifyResult", "ReplayStore",
   "InMemoryReplayStore", "create_challenge", "verify_authorization",
   "base64url_encode", "base64url_decode", "generate_nonce",
   "current_timestamp", "parse_authorization_header", "build_signing_string"]

/-- The names `__init__.py` imports from `webx403.middleware`, in source
order. -/
def middlewareImports : List String :=
  ["WebX403Config", "WebX403Middleware", "WebX403User", "require_webx403_user"]

/-- The `__all__` list of `webx403/__init__.py`, in source order. -/
def dunderAll : List String :=
  ["__version__", "Challenge", "AuthorizationParams", "VerifyResult",
   "ReplayStore", "InMemoryReplayStore", "create_challenge",
   "verify_authorization", "base64url_encode", "base64url_decode",
   "generate_nonce", "current_timestamp", "parse_authorization_header",
   "build_signing_string", "WebX403Config", "WebX403Middleware",
   "WebX403User", "require_webx403_user"]

/-! ## Claim theorems -/

/-- C4: for every byte sequence `x`, `base64url_decode (base64url_encode x)`
recovers `x`, and the encoded output contains only characters from
`[A-Za-z0-9_-]` — in particular never `=`, `+` or `/`. -/
theorem C4_b64_roundtrip_alphabet (l : List Nat) (h : isBytes l) :
    base64url_decode (base64url_encode l) = some l ∧
    ∀ c ∈ base64url_encode l,
      isB64UrlChar c = true ∧ c ≠ '=' ∧ c ≠ '+' ∧ c ≠ '/' := by
  refine ⟨b64_roundtrip l h, fun c hc => ?_⟩
  have hgood := b64_encode_chars l h c hc
  refine ⟨hgood, ?_, ?_, ?_⟩ <;>
    · rintro rfl
      simp [isB64UrlChar] at hgood

theorem C4_witness :
    isBytes [0, 255, 16] ∧
    (base64url_decode (base64url_encode [0, 255, 16]) = some [0, 255, 16] ∧
      ∀ c ∈ base64url_encode [0, 255, 16],
        isB64UrlChar c = true ∧ c ≠ '=' ∧ c ≠ '+' ∧ c ≠ '/') :=
  ⟨by decide, C4_b64_roundtrip_alphabet [0, 255, 16] (by decide)⟩

/-- C3: `build_signing_string` is deterministic and injective over
`(domain, nonce, timestamp, boundFields)` tuples (with byte-valued nonces):
two signing strings are equal exactly when the four inputs agree, so a field
value containing the separator cannot make two distinct tuples collide. -/
theorem C3_signing_string_det_inj
    (d1 d2 : String) (n1 n2 : List Nat) (t1 t2 : Nat)
    (f1 f2 : List (String × String)) (h1 : isBytes n1) (h2 : isBytes n2) :
    build_signing_string d1 n1 t1 f1 = build_signing_string d2 n2 t2 f2 ↔
      d1 = d2 ∧ n1 = n2 ∧ t1 = t2 ∧ f1 = f2 := by
  constructor
  · intro h
    have hdata := congrArg String.data h
    simp only [build_signing_string] at hdata
    have hcomp := encList_inj _ _ hdata
    simp only [signingComponents, List.cons.injEq] at hcomp
    obtain ⟨-, hd, hn, ht, hf⟩ := hcomp
    exact ⟨String.ext hd, b64_encode_injOn h1 h2 hn, natDigits_inj ht,
      fieldsFlatten_inj _ _ hf⟩
  · rintro ⟨rfl, rfl, rfl, rfl⟩
    rfl

theorem C3_witness :
    isBytes [1, 2] ∧
    build_signing_string "d" [1, 2] 5 [("a", "x:1:y")] ≠
      build_signing_string "d" [1, 2] 5 [("a:x", "1:y")] :=
  ⟨by decide, fun heq => by
    have h := (C3_signing_string_det_inj "d" "d" [1, 2] [1, 2] 5 5
      [("a", "x:1:y")] [("a:x", "1:y")] (by decide) (by decide)).mp heq
    simp at h⟩

/-- The signing string the verifier reconstructs from received parameters. -/
def signingStringOf (p : AuthorizationParams) : String :=
  build_signing_string p.domain p.nonce p.timestamp p.extraBoundFields

/-- C1: the verifier checks in the fixed order signature → timestamp window →
replay, short-circuiting at the first failure: a bad signature yields
`Invalid{BadSignature}` with the replay store untouched, and a request outside
the timestamp window yields `Invalid{Expired}`/`Invalid{NotYetValid}`, again
with the replay store untouched — so neither ever marks `(publicKey, nonce)`. -/
theorem C1_verify_order (κ : SigVerifier) (cfg : VerifyConfig) (now : Nat)
    (store : InMemoryReplayStore) (p : AuthorizationParams) :
    (κ p.publicKey (signingStringOf p) p.signature = false →
      verify_authorization κ cfg now store p = (.invalid .BadSignature, store)) ∧
    (κ p.publicKey (signingStringOf p) p.signature = true →
      cfg.maxChallengeAgeSeconds < now - p.timestamp →
      verify_authorization κ cfg now store p = (.invalid .Expired, store)) ∧
    (κ p.publicKey (signingStringOf p) p.signature = true →
      now - p.timestamp ≤ cfg.maxChallengeAgeSeconds →
      cfg.clockSkewToleranceSeconds < p.timestamp - now →
      verify_authorization κ cfg now store p = (.invalid .NotYetValid, store)) := by
  refine ⟨?_, ?_, ?_⟩
  · intro hκ
    simp only [signingStringOf] at hκ
    simp [verify_authorization, hκ]
  · intro hκ hexp
    simp only [signingStringOf] at hκ
    simp [verify_authorization, hκ, hexp]
  · intro hκ hage hskew
    simp only [signingStringOf] at hκ
    simp [verify_authorization, hκ, hskew, Nat.not_lt.mpr hage]

theorem C1_witness :
    verify_authorization (fun _ _ _ => false) ⟨300, 60⟩ 1100 []
      ⟨[0], [0], [1], 1000, "d", []⟩ = (.invalid .BadSignature, []) ∧
    verify_authorization (fun _ _ _ => true) ⟨300, 60⟩ 1400 []
      ⟨[0], [0], [1], 1000, "d", []⟩ = (.invalid .Expired, []) ∧
    verify_authorization (fun _ _ _ => true) ⟨300, 60⟩ 100 []
      ⟨[0], [0], [1], 1000, "d", []⟩ = (.invalid .NotYetValid, []) :=
  ⟨(C1_verify_order (fun _ _ _ => false) ⟨300, 60⟩ 1100 [] _).1 rfl,
   (C1_verify_order (fun _ _ _ => true) ⟨300, 60⟩ 1400 [] _).2.1 rfl (by decide),
   (C1_verify_order (fun _ _ _ => true) ⟨300, 60⟩ 100 [] _).2.2 rfl (by decide)
     (by decide)⟩

/-- C2 counterexample: under the §4.5 ordering (timestamp check before the
replay check) a subsequent verification attempt with the identical nonce and
public key does NOT always return `Invalid{Replayed}`: replaying the
identical, validly-signed header after the timestamp window has closed
returns `Invalid{Expired}` instead. -/
theorem C2_counterexample :
    (verify_authorization (fun _ _ _ => true) ⟨300, 60⟩ 1100 []
        ⟨[0], [0], [1], 1000, "d", []⟩).1 = .valid [0] [] ∧
    (verify_authorization (fun _ _ _ => true) ⟨300, 60⟩ 1400
        (verify_authorization (fun _ _ _ => true) ⟨300, 60⟩ 1100 []
          ⟨[0], [0], [1], 1000, "d", []⟩).2
        ⟨[0], [0], [1], 1000, "d", []⟩).1 = .invalid .Expired ∧
    (InvalidReason.Expired ≠ InvalidReason.Replayed) := by decide

/-- C2 (amended): with a valid signature, a timestamp inside the acceptance
window and a fresh `(publicKey, nonce)` pair, verification returns `Valid`
and marks the pair; afterwards every verification attempt with the identical
header whose timestamp still lies inside the window returns
`Invalid{Replayed}` — so `Valid` is returned exactly once. -/
theorem C2_valid_once (κ : SigVerifier) (cfg : VerifyConfig) (now1 : Nat)
    (store : InMemoryReplayStore) (p : AuthorizationParams)
    (hκ : κ p.publicKey (signingStringOf p) p.signature = true)
    (hage1 : now1 - p.timestamp ≤ cfg.maxChallengeAgeSeconds)
    (hskew1 : p.timestamp - now1 ≤ cfg.clockSkewToleranceSeconds)
    (hfresh : containsKey store (p.publicKey, p.nonce) = false) :
    (verify_authorization κ cfg now1 store p).1
        = .valid p.publicKey p.extraBoundFields ∧
    containsKey (verify_authorization κ cfg now1 store p).2
        (p.publicKey, p.nonce) = true ∧
    ∀ (now2 : Nat) (store2 : InMemoryReplayStore),
      containsKey store2 (p.publicKey, p.nonce) = true →
      now2 - p.timestamp ≤ cfg.maxChallengeAgeSeconds →
      p.timestamp - now2 ≤ cfg.clockSkewToleranceSeconds →
      verify_authorization κ cfg now2 store2 p = (.invalid .Replayed, store2) := by
  simp only [signingStringOf] at hκ
  have hmark : markIfAbsent store (p.publicKey, p.nonce)
      (p.timestamp + cfg.maxChallengeAgeSeconds) =
      (true, ((p.publicKey, p.nonce),
        p.timestamp + cfg.maxChallengeAgeSeconds) :: store) := by
    simp [markIfAbsent, hfresh]
  refine ⟨?_, ?_, ?_⟩
  · simp [verify_authorization, hκ, Nat.not_lt.mpr hage1,
      Nat.not_lt.mpr hskew1, hmark]
  · simp only [verify_authorization, hκ, if_true, if_pos,
      Nat.not_lt.mpr hage1, if_neg, Nat.not_lt.mpr hskew1, hmark]
    simp [verify_authorization, hκ, Nat.not_lt.mpr hage1,
      Nat.not_lt.mpr hskew1, hmark, containsKey]
  · intro now2 store2 hmarked hage2 hskew2
    have hmark2 : markIfAbsent store2 (p.publicKey, p.nonce)
        (p.timestamp + cfg.maxChallengeAgeSeconds) = (false, store2) := by
      simp [markIfAbsent, hmarked]
    simp [verify_authorization, hκ, Nat.not_lt.mpr hage2,
      Nat.not_lt.mpr hskew2, hmark2]

theorem C2_witness :
    (verify_authorization (fun _ _ _ => true) ⟨300, 60⟩ 1100 []
        ⟨[0], [0], [1], 1000, "d", []⟩).1 = .valid [0] [] ∧
    (verify_authorization (fun _ _ _ => true) ⟨300, 60⟩ 1150
        (verify_authorization (fun _ _ _ => true) ⟨300, 60⟩ 1100 []
          ⟨[0], [0], [1], 1000, "d", []⟩).2
        ⟨[0], [0], [1], 1000, "d", []⟩).1 = .invalid .Replayed := by
  have h := C2_valid_once (fun _ _ _ => true) ⟨300, 60⟩ 1100 []
    ⟨[0], [0], [1], 1000, "d", []⟩ rfl (by decide) (by decide) rfl
  refine ⟨h.1, ?_⟩
  rw [h.2.2 1150 _ h.2.1 (by decide) (by decide)]

/-- C5: with a valid signature, a timestamp older than
`now - maxChallengeAgeSeconds` yields `Invalid{Expired}`, one beyond
`now + clockSkewToleranceSeconds` yields `Invalid{NotYetValid}`, and a
timestamp exactly at either boundary passes the window check (the comparisons
are inclusive), reaching the replay step. -/
theorem C5_timestamp_window (κ : SigVerifier) (cfg : VerifyConfig) (now : Nat)
    (store : InMemoryReplayStore) (p : AuthorizationParams)
    (hκ : κ p.publicKey (signingStringOf p) p.signature = true) :
    (p.timestamp + cfg.maxChallengeAgeSeconds < now →
      verify_authorization κ cfg now store p = (.invalid .Expired, store)) ∧
    (now + cfg.clockSkewToleranceSeconds < p.timestamp →
      verify_authorization κ cfg now store p = (.invalid .NotYetValid, store)) ∧
    (now = p.timestamp + cfg.maxChallengeAgeSeconds →
      (verify_authorization κ cfg now store p).1
          = .valid p.publicKey p.extraBoundFields ∨
      (verify_authorization κ cfg now store p).1 = .invalid .Replayed) ∧
    (p.timestamp = now + cfg.clockSkewToleranceSeconds →
      (verify_authorization κ cfg now store p).1
          = .valid p.publicKey p.extraBoundFields ∨
      (verify_authorization κ cfg now store p).1 = .invalid .Replayed) := by
  simp only [signingStringOf] at hκ
  refine ⟨?_, ?_, ?_, ?_⟩
  · intro hold
    have : cfg.maxChallengeAgeSeconds < now - p.timestamp := by omega
    simp [verify_authorization, hκ, this]
  · intro hfut
    have h1 : ¬ cfg.maxChallengeAgeSeconds < now - p.timestamp := by omega
    have h2 : cfg.clockSkewToleranceSeconds < p.timestamp - now := by omega
    simp [verify_authorization, hκ, h1, h2]
  · intro hb
    have h1 : ¬ cfg.maxChallengeAgeSeconds < now - p.timestamp := by omega
    have h2 : ¬ cfg.clockSkewToleranceSeconds < p.timestamp - now := by omega
    by_cases hc : containsKey store (p.publicKey, p.nonce)
    · right
      simp [verify_authorization, hκ, h1, h2, markIfAbsent, hc]
    · left
      simp [verify_authorization, hκ, h1, h2, markIfAbsent, hc]
  · intro hb
    have h1 : ¬ cfg.maxChallengeAgeSeconds < now - p.timestamp := by omega
    have h2 : ¬ cfg.clockSkewToleranceSeconds < p.timestamp - now := by omega
    by_cases hc : containsKey store (p.publicKey, p.nonce)
    · right
      simp [verify_authorization, hκ, h1, h2, markIfAbsent, hc]
    · left
      simp [verify_authorization, hκ, h1, h2, markIfAbsent, hc]

theorem C5_witness :
    verify_authorization (fun _ _ _ => true) ⟨300, 60⟩ 1301 []
      ⟨[0], [0], [1], 1000, "d", []⟩ = (.invalid .Expired, []) ∧
    verify_authorization (fun _ _ _ => true) ⟨300, 60⟩ 100 []
      ⟨[0], [0], [1], 161, "d", []⟩ = (.invalid .NotYetValid, []) ∧
    ((verify_authorization (fun _ _ _ => true) ⟨300, 60⟩ 1300 []
        ⟨[0], [0], [1], 1000, "d", []⟩).1 = .valid [0] [] ∨
      (verify_authorization (fun _ _ _ => true) ⟨300, 60⟩ 1300 []
        ⟨[0], [0], [1], 1000, "d", []⟩).1 = .invalid .Replayed) ∧
    ((verify_authorization (fun _ _ _ => true) ⟨300, 60⟩ 100 []
        ⟨[0], [0], [1], 160, "d", []⟩).1 = .valid [0] [] ∨
      (verify_authorization (fun _ _ _ => true) ⟨300, 60⟩ 100 []
        ⟨[0], [0], [1], 160, "d", []⟩).1 = .invalid .Replayed) :=
  ⟨(C5_timestamp_window (fun _ _ _ => true) ⟨300, 60⟩ 1301 [] _ rfl).1 (by decide),
   (C5_timestamp_window (fun _ _ _ => true) ⟨300, 60⟩ 100 [] _ rfl).2.1 (by decide),
   (C5_timestamp_window (fun _ _ _ => true) ⟨300, 60⟩ 1300 [] _ rfl).2.2.1
     (by decide),
   (C5_timestamp_window (fun _ _ _ => true) ⟨300, 60⟩ 100 [] _ rfl).2.2.2
     (by decide)⟩

/-- A header parameter list is bad when it has a duplicate key, lacks a
required key, or binds a required key to a value that fails its expected
encoding. -/
def badPairs (pairs : List (String × String)) : Prop :=
  hasDupKeys pairs = true ∨
  (∃ k ∈ requiredKeys, lookupVal pairs k = none) ∨
  (∃ v, lookupVal pairs "publicKey" = some v ∧ decodeB64Value v = none) ∨
  (∃ v, lookupVal pairs "signature" = some v ∧ decodeB64Value v = none) ∨
  (∃ v, lookupVal pairs "nonce" = some v ∧ decodeB64Value v = none) ∨
  (∃ v, lookupVal pairs "timestamp" = some v ∧ parseTimestampValue v = none)

theorem validatePairs_none_of_bad (pairs : List (String × String))
    (hbad : badPairs pairs) : validatePairs pairs = none := by
  rcases hbad with hdup | ⟨k, hk, hnone⟩ | ⟨v, hv, hdec⟩ | ⟨v, hv, hdec⟩ |
    ⟨v, hv, hdec⟩ | ⟨v, hv, hdec⟩
  · simp [validatePairs, hdup]
  · simp only [requiredKeys, List.mem_cons, List.not_mem_nil, or_false] at hk
    unfold validatePairs
    rcases hk with rfl | rfl | rfl | rfl | rfl <;>
      · repeat' split
        all_goals simp_all
  · unfold validatePairs
    repeat' split
    all_goals simp_all
  · unfold validatePairs
    repeat' split
    all_goals simp_all
  · unfold validatePairs
    repeat' split
    all_goals simp_all
  · unfold validatePairs
    repeat' split
    all_goals simp_all

/-- C6: a raw header whose parameter list has a duplicate key, lacks a
required key (`publicKey`, `signature`, `nonce`, `timestamp`, `domain`), or
binds a required key to a value failing its expected encoding (invalid
base64url, or a timestamp that is not a non-negative integer) fails parsing,
and verification returns `Invalid{Malformed}` with the store untouched for
EVERY signature verifier — so no cryptographic check is ever attempted. -/
theorem C6_malformed_rejected (raw : String) (scheme : String)
    (pairs : List (String × String))
    (hlex : lexHeader raw = some (scheme, pairs)) (hbad : badPairs pairs) :
    parse_authorization_header raw = none ∧
    ∀ (κ : SigVerifier) (cfg : VerifyConfig) (now : Nat)
      (store : InMemoryReplayStore),
      verify_header κ cfg now store raw = (.invalid .Malformed, store) := by
  have hparse : parse_authorization_header raw = none := by
    simp [parse_authorization_header, hlex, validatePairs_none_of_bad pairs hbad]
  exact ⟨hparse, fun κ cfg now store => by simp [verify_header, hparse]⟩

theorem C6_witness :
    lexHeader "WebX403 nonce=\"AA\", nonce=\"AA\"" =
      some ("WebX403", [("nonce", "AA"), ("nonce", "AA")]) ∧
    parse_authorization_header "WebX403 nonce=\"AA\", nonce=\"AA\"" = none ∧
    verify_header (fun _ _ _ => true) ⟨300, 60⟩ 1100 []
      "WebX403 nonce=\"AA\", nonce=\"AA\"" = (.invalid .Malformed, []) := by
  have h := C6_malformed_rejected "WebX403 nonce=\"AA\", nonce=\"AA\""
    "WebX403" [("nonce", "AA"), ("nonce", "AA")] (by decide) (Or.inl (by decide))
  exact ⟨by decide, h.1, h.2 (fun _ _ _ => true) ⟨300, 60⟩ 1100 []⟩

/-- A (linearized) sequence of `n` `markIfAbsent` calls with the same key:
the list of returned booleans and the final store. -/
def markN : Nat → ReplayKey → Nat → InMemoryReplayStore →
    List Bool × InMemoryReplayStore
  | 0, _, _, store => ([], store)
  | n + 1, k, e, store =>
      let r1 := markIfAbsent store k e
      let rest := markN n k e r1.2
      (r1.1 :: rest.1, rest.2)

theorem containsKey_insert (store : InMemoryReplayStore) (k : ReplayKey)
    (e : Nat) : containsKey ((k, e) :: store) k = true := by
  simp [containsKey]

theorem markN_of_contains (n : Nat) (k : ReplayKey) (e : Nat) :
    ∀ store : InMemoryReplayStore, containsKey store k = true →
      markN n k e store = (List.replicate n false, store) := by
  induction n with
  | zero => intro store _; rfl
  | succ m ih =>
      intro store hc
      simp [markN, markIfAbsent, hc, ih store hc, List.replicate_succ]

/-- C7: `markIfAbsent` is a check-and-set — it returns `true` exactly when
the key is not yet present — and across any linearization of `n + 1` calls
with the same key starting from a store not containing it, exactly the first
call returns `true` and all others return `false`. -/
theorem C7_mark_exactly_once (store : InMemoryReplayStore) (k : ReplayKey)
    (e : Nat) (n : Nat) :
    ((markIfAbsent store k e).1 = true ↔ containsKey store k = false) ∧
    (containsKey store k = false →
      (markN (n + 1) k e store).1 = true :: List.replicate n false ∧
      (markN (n + 1) k e store).1.count true = 1) := by
  constructor
  · unfold markIfAbsent
    cases hc : containsKey store k <;> simp [hc]
  · intro hfresh
    have hmarkn := markN_of_contains n k e ((k, e) :: store)
      (containsKey_insert store k e)
    have : markN (n + 1) k e store = (true :: List.replicate n false,
        (k, e) :: store) := by
      simp [markN, markIfAbsent, hfresh, hmarkn]
    simp [this, List.count_cons, List.count_replicate]

theorem C7_witness :
    containsKey [] ([0], [1]) = false ∧
    (markN 3 ([0], [1]) 5 []).1 = [true, false, false] ∧
    (markN 3 ([0], [1]) 5 []).1.count true = 1 := by
  have h := (C7_mark_exactly_once [] ([0], [1]) 5 2).2 rfl
  exact ⟨rfl, by simpa using h.1, h.2⟩

/-- C8: eviction never removes an entry before its retention deadline — an
entry whose expiry lies after `now` survives `evictExpired now`, and in
particular its key still blocks `markIfAbsent` afterwards — and the
check-and-set answer of `markIfAbsent` is characterized by membership alone,
independent of whether `evictExpired` was ever invoked. -/
theorem C8_eviction_retention (store : InMemoryReplayStore) (k : ReplayKey)
    (exp now e2 : Nat) :
    ((k, exp) ∈ store → now < exp → (k, exp) ∈ evictExpired now store) ∧
    ((k, exp) ∈ store → now < exp →
      (markIfAbsent (evictExpired now store) k e2).1 = false) ∧
    ((markIfAbsent store k e2).1 = false ↔ containsKey store k = true) := by
  refine ⟨?_, ?_, ?_⟩
  · intro hmem hlt
    exact List.mem_filter.mpr ⟨hmem, decide_eq_true (show now ≤ exp by omega)⟩
  · intro hmem hlt
    have hmem2 : (k, exp) ∈ evictExpired now store :=
      List.mem_filter.mpr ⟨hmem, decide_eq_true (show now ≤ exp by omega)⟩
    have hc : containsKey (evictExpired now store) k = true := by
      simp only [containsKey, List.any_eq_true]
      exact ⟨(k, exp), hmem2, by simp⟩
    simp [markIfAbsent, hc]
  · unfold markIfAbsent
    cases hc : containsKey store k <;> simp [hc]

theorem C8_witness :
    (((([0], [1]), 10) : ReplayKey × Nat) ∈
        ([(([0], [1]), 10)] : InMemoryReplayStore)) ∧ 5 < 10 ∧
    ((([0], [1]), 10) : ReplayKey × Nat) ∈
      evictExpired 5 [(([0], [1]), 10)] ∧
    (markIfAbsent (evictExpired 5 [(([0], [1]), 10)]) ([0], [1]) 7).1 = false ∧
    ((markIfAbsent [(([0], [1]), 10)] ([0], [1]) 7).1 = false ↔
      containsKey [(([0], [1]), 10)] ([0], [1]) = true) := by
  have h := C8_eviction_retention [(([0], [1]), 10)] ([0], [1]) 10 5 7
  exact ⟨by decide, by decide, h.1 (by decide) (by decide),
    h.2.1 (by decide) (by decide), h.2.2⟩

/-- C9: with a positive `ttl` not exceeding the configured maximum,
`create_challenge` succeeds with `issuedAt = now`,
`expiresAt = issuedAt + ttl` and a nonce of at least 16 bytes (32 here);
a non-positive or above-maximum `ttl` fails with a configuration error at
construction. -/
theorem C9_create_challenge (domain : String) (ttl maxTtl now : Int)
    (rand : Nat → Nat) :
    (0 < ttl → ttl ≤ maxTtl →
      ∃ c : Challenge, create_challenge domain ttl maxTtl now rand = .ok c ∧
        c.expiresAt = c.issuedAt + ttl ∧ c.issuedAt = now ∧
        c.domain = domain ∧ 16 ≤ c.nonce.length) ∧
    (ttl ≤ 0 ∨ maxTtl < ttl →
      create_challenge domain ttl maxTtl now rand =
        .error "configuration error: invalid ttlSeconds") := by
  constructor
  · intro hpos hle
    have hok : ¬ (ttl ≤ 0 ∨ maxTtl < ttl) := by omega
    refine ⟨⟨generate_nonce 32 rand, now, now + ttl, domain⟩,
      by simp [create_challenge, hok], rfl, rfl, rfl, ?_⟩
    simp [generate_nonce]
  · intro hbad
    simp [create_challenge, hbad]

theorem C9_witness :
    (∃ c : Challenge, create_challenge "example.com" 300 3600 1000
        (fun i => i) = .ok c ∧
      c.expiresAt = c.issuedAt + 300 ∧ c.issuedAt = 1000 ∧
      c.domain = "example.com" ∧ 16 ≤ c.nonce.length) ∧
    create_challenge "example.com" 0 3600 1000 (fun i => i) =
      .error "configuration error: invalid ttlSeconds" :=
  ⟨(C9_create_challenge "example.com" 300 3600 1000 (fun i => i)).1
      (by decide) (by decide),
   (C9_create_challenge "example.com" 0 3600 1000 (fun i => i)).2
      (Or.inl (by decide))⟩

/-- C10 counterexample: `__init__.py` imports 17 names from `webx403.core`
and `webx403.middleware`, not 18 — `__all__` has 18 entries only because
`__version__` (which is not imported) is among them, so "these 18 symbols
plus `__version__`" miscounts the export surface. -/
theorem C10_counterexample :
    (coreImports ++ middlewareImports).length = 17 ∧
    ¬ (coreImports ++ middlewareImports).length = 18 ∧
    "__version__" ∈ dunderAll ∧ "__version__" ∉ coreImports ++ middlewareImports ∧
    dunderAll.length = 18 := by decide

/-- C10 (amended): every name in `__all__` other than `__version__` is one of
the names imported from `webx403.core` or `webx403.middleware`, every
imported name appears in `__all__`, and there are no duplicates — the
package exposes precisely the 17 imported symbols plus `__version__`,
18 entries in all. -/
theorem C10_export_surface :
    (∀ n ∈ dunderAll, n = "__version__" ∨ n ∈ coreImports ++ middlewareImports) ∧
    (∀ n ∈ coreImports ++ middlewareImports, n ∈ dunderAll) ∧
    dunderAll.Nodup ∧ (coreImports ++ middlewareImports).Nodup ∧
    (coreImports ++ middlewareImports).length = 17 ∧
    dunderAll.length = 18 ∧
    "__version__" ∉ coreImports ++ middlewareImports := by decide

end WebX403
